import Mathlib

/-!
Shallow embedding of the LiveChat connection registry and broadcast engine
(Go sources: `backend/model/client.go`, the `ClientRepository` in
`backend/repository`, the `BroadcastService` in `backend/service`, and the
`WebSocketHandler` in `backend/handler`).

Modelling choices:
* A Go `*model.Client` stored in the registry map is modelled as a `Client`
  value in a list keyed by its `id` field; pointer mutation is modelled by
  updating the list entry with the matching id.
* The websocket transport of a client is modelled by the boolean field
  `connWriteFails`: `Conn.WriteMessage` on that client returns an error
  exactly when the flag is set.  `Conn.Close` is recorded in `connClosed`.
* `time.Now().Unix()` is passed in explicitly as a `now : Int` argument.
* The `map[string][]ChatMessage` message log is modelled as a total function
  from keys to lists (absent key = empty list, matching Go's zero value).
* Go errors (`errors.New` values) are modelled by the `GoError` inductive;
  distinct Go error values map to distinct constructors.
-/

namespace LiveChat

/-- `backend/model/client.go`: the `Client` struct.  `connWriteFails` and
`connClosed` model the state of the `*websocket.Conn` transport. -/
structure Client where
  id : String
  userName : String
  roomID : String
  isActive : Bool
  joinedAt : Int
  lastActive : Int
  connWriteFails : Bool
  connClosed : Bool
deriving DecidableEq, Repr

/-- `Client.UpdateActivity`: refresh the last-activity timestamp. -/
def Client.updateActivity (now : Int) (c : Client) : Client :=
  { c with lastActive := now }

/-- `Client.Deactivate`: clear the active flag. -/
def Client.deactivate (c : Client) : Client :=
  { c with isActive := false }

/-- `Client.SetRoomID`: set the room field. -/
def Client.setRoomID (roomID : String) (c : Client) : Client :=
  { c with roomID := roomID }

/-- The Go error values produced by the registry, the broadcast service and
the transport. -/
inductive GoError where
  | errClientNotFound
  | errClientExists
  | errNilClient
  | errEmptyMessage
  | errNoClients
  | errEmptyRoomID
  | errNoActiveClientsInRoom
  | errClientInactive
  | errWriteFailed
deriving DecidableEq, Repr

namespace ClientRepository

/-- `ClientRepository.Add`: nil check, duplicate-id check, then insert. -/
def Add (clients : List Client) (client : Option Client) :
    Except GoError (List Client) :=
  match client with
  | none => .error .errNilClient
  | some c =>
    if clients.any (fun x => decide (x.id = c.id)) then .error .errClientExists
    else .ok (clients ++ [c])

/-- `ClientRepository.Remove`: missing-id check, then delete the entry. -/
def Remove (clients : List Client) (clientID : String) :
    Except GoError (List Client) :=
  if clients.any (fun x => decide (x.id = clientID)) then
    .ok (clients.filter (fun x => !decide (x.id = clientID)))
  else .error .errClientNotFound

/-- `ClientRepository.Get`: look the client up by id. -/
def Get (clients : List Client) (clientID : String) : Except GoError Client :=
  match clients.find? (fun x => decide (x.id = clientID)) with
  | some c => .ok c
  | none => .error .errClientNotFound

/-- `ClientRepository.GetActiveClients`: the clients whose active flag is set. -/
def GetActiveClients (clients : List Client) : List Client :=
  clients.filter (fun c => c.isActive)

/-- `ClientRepository.Count`: number of registered clients. -/
def Count (clients : List Client) : Nat := clients.length

end ClientRepository

/-- `MessageType` from the broadcast service. -/
inductive MessageType where
  | TextMessage
  | SystemMessage
  | ErrorMessage
deriving DecidableEq, Repr

/-- `ChatMessage` from the broadcast service. -/
structure ChatMessage where
  type : MessageType
  content : String
  sender : String
  roomID : String
  timestamp : Int
deriving DecidableEq, Repr

/-- The mutable state of a `BroadcastService` together with the client
repository it owns. -/
structure BroadcastState where
  clients : List Client
  messageLog : String → List ChatMessage
  maxLogSize : Nat

/-- `NewBroadcastService`: empty repository, empty log; the Go constructor
defaults the bound to 100 unless `WithMaxLogSize` overrides it. -/
def NewBroadcastService (maxLogSize : Nat) : BroadcastState :=
  { clients := [], messageLog := fun _ => [], maxLogSize := maxLogSize }

/-- The log key used by `logMessage`/`GetMessageHistory`: the empty room id
is replaced by the reserved key `"global"`. -/
def logKey (roomID : String) : String :=
  if roomID = "" then "global" else roomID

/-- `BroadcastService.logMessage`: append under the room key, then drop the
oldest entry if the bound is exceeded (`s.messageLog[roomID][1:]`). -/
def logMessage (st : BroadcastState) (msg : ChatMessage) : BroadcastState :=
  let key := logKey msg.roomID
  let entries := st.messageLog key ++ [msg]
  let entries := if st.maxLogSize < entries.length then entries.drop 1 else entries
  { st with messageLog := fun k => if k = key then entries else st.messageLog k }

/-- `BroadcastService.GetMessageHistory`. -/
def GetMessageHistory (st : BroadcastState) (roomID : String) : List ChatMessage :=
  st.messageLog (logKey roomID)

/-- `BroadcastService.handleClientError`: deactivate the client and close its
transport (the error-reporting callback has no further observable effect). -/
def handleClientError (c : Client) : Client :=
  { c with isActive := false, connClosed := true }

/-- Apply `f` to the registry entry whose id is `cid` (models mutation
through the shared `*model.Client` pointer). -/
def updateClient (clients : List Client) (cid : String) (f : Client → Client) :
    List Client :=
  clients.map (fun x => if x.id = cid then f x else x)

/-- One `client.Conn.WriteMessage` call inside a broadcast loop: on failure
`handleClientError`, on success `UpdateActivity`. -/
def writeStep (now : Int) (s : BroadcastState) (c : Client) : BroadcastState :=
  if c.connWriteFails then
    { s with clients := updateClient s.clients c.id handleClientError }
  else
    { s with clients := updateClient s.clients c.id (Client.updateActivity now) }

/-- The effect of the loop body on the snapshot element itself. -/
def applyWrite (now : Int) (c : Client) : Client :=
  if c.connWriteFails then handleClientError c else c.updateActivity now

/-- The fan-out loop of `BroadcastMessage`: write to every client of the
snapshot, recording each attempted target id. -/
def fanOut (now : Int) (s : BroadcastState) (targets : List Client) :
    BroadcastState × List String :=
  targets.foldl (fun acc c => (writeStep now acc.1 c, acc.2 ++ [c.id])) (s, [])

/-- The fan-out loop of `BroadcastToRoom`: write only to snapshot clients
whose room field matches, recording each attempted target id. -/
def fanOutRoom (roomID : String) (now : Int) (s : BroadcastState)
    (targets : List Client) : BroadcastState × List String :=
  targets.foldl
    (fun acc c =>
      if c.roomID = roomID then (writeStep now acc.1 c, acc.2 ++ [c.id]) else acc)
    (s, [])

/-- Result of one send/broadcast call: the Go error (if any), the state after
the call, and the ids of the clients a transport write was attempted on. -/
structure SendOutcome where
  err : Option GoError
  state : BroadcastState
  attempted : List String

/-- `BroadcastService.BroadcastMessage`. -/
def BroadcastMessage (st : BroadcastState) (message : String) (now : Int) :
    SendOutcome :=
  if message = "" then ⟨some .errEmptyMessage, st, []⟩
  else
    let clients := ClientRepository.GetActiveClients st.clients
    if clients = [] then ⟨some .errNoClients, st, []⟩
    else
      let st := logMessage st ⟨.TextMessage, message, "", "", now⟩
      let res := fanOut now st clients
      ⟨none, res.1, res.2⟩

/-- `BroadcastService.BroadcastToRoom`. -/
def BroadcastToRoom (st : BroadcastState) (roomID message : String) (now : Int) :
    SendOutcome :=
  if message = "" then ⟨some .errEmptyMessage, st, []⟩
  else if roomID = "" then ⟨some .errEmptyRoomID, st, []⟩
  else
    let clients := ClientRepository.GetActiveClients st.clients
    if clients = [] then ⟨some .errNoClients, st, []⟩
    else
      let st := logMessage st ⟨.TextMessage, message, "", roomID, now⟩
      let res := fanOutRoom roomID now st clients
      if res.2.length = 0 then ⟨some .errNoActiveClientsInRoom, res.1, res.2⟩
      else ⟨none, res.1, res.2⟩

/-- `BroadcastService.SendPrivateMessage`. -/
def SendPrivateMessage (st : BroadcastState) (targetID message : String)
    (now : Int) : SendOutcome :=
  if message = "" then ⟨some .errEmptyMessage, st, []⟩
  else
    match ClientRepository.Get st.clients targetID with
    | .error e => ⟨some e, st, []⟩
    | .ok c =>
      if !c.isActive then ⟨some .errClientInactive, st, []⟩
      else if c.connWriteFails then
        ⟨some .errWriteFailed,
          { st with clients := updateClient st.clients c.id handleClientError },
          [c.id]⟩
      else
        ⟨none,
          { st with clients := updateClient st.clients c.id (Client.updateActivity now) },
          [c.id]⟩

/-- `BroadcastService.AddClient`: register, and if the client already has a
room, log a system notice and broadcast it to that room (the broadcast's
return value is discarded). -/
def AddClient (st : BroadcastState) (client : Option Client) (now : Int) :
    Option GoError × BroadcastState :=
  match client with
  | none => (some .errNilClient, st)
  | some c =>
    match ClientRepository.Add st.clients (some c) with
    | .error e => (some e, st)
    | .ok clients1 =>
      let st := { st with clients := clients1 }
      if c.roomID = "" then (none, st)
      else
        let st := logMessage st ⟨.SystemMessage, "新用戶加入聊天室", "", c.roomID, now⟩
        (none, (BroadcastToRoom st c.roomID "新用戶加入聊天室" now).state)

/-- `BroadcastService.RemoveClient`. -/
def RemoveClient (st : BroadcastState) (clientID : String) :
    Option GoError × BroadcastState :=
  match ClientRepository.Remove st.clients clientID with
  | .error e => (some e, st)
  | .ok cs => (none, { st with clients := cs })

/-- `BroadcastService.GetClientsInRoom`: active clients whose room matches. -/
def GetClientsInRoom (st : BroadcastState) (roomID : String) : List Client :=
  (ClientRepository.GetActiveClients st.clients).filter
    (fun c => decide (c.roomID = roomID))

/-! ## The websocket handler (`backend/handler`, `WebSocketHandler`). -/

/-- `MessagePayload` from the handler: the decoded JSON envelope. -/
structure MessagePayload where
  type : String
  content : String
  target : String
deriving DecidableEq, Repr

/-- Which branch of `processTextMessage` handled the frame. -/
inductive HandlerAction where
  | privateMsg (target : String)
  | joinedRoom (roomID : String)
  | leftRoom
  | chatToRoom (roomID : String)
  | chatToAll
deriving DecidableEq, Repr

/-- Look up the handler's client in the registry by id. -/
def findClient (st : BroadcastState) (cid : String) : Option Client :=
  st.clients.find? (fun c => decide (c.id = cid))

/-- The `client.RoomID` field read through the shared pointer. -/
def clientRoom (st : BroadcastState) (cid : String) : String :=
  (findClient st cid).elim "" (fun c => c.roomID)

/-- The `client.UserName` field read through the shared pointer. -/
def clientName (st : BroadcastState) (cid : String) : String :=
  (findClient st cid).elim "" (fun c => c.userName)

/-- The `fmt.Sprintf` join notice of `handleJoinRoom`. -/
def joinNotice (name : String) : String :=
  "使用者 " ++ name ++ " 已加入聊天室"

/-- The `fmt.Sprintf` leave notice of `handleLeaveRoom`. -/
def leaveNotice (name : String) : String :=
  "使用者 " ++ name ++ " 已離開聊天室"

/-- Models the `json.Marshal` of the private-message envelope built by
`handlePrivateMessage` (the payload bytes are opaque to the claims; only
their construction from content, sender and time matters). -/
def mkPrivateJson (content sender : String) (now : Int) : String :=
  "private/" ++ sender ++ "/" ++ content ++ "/" ++ toString now

/-- `WebSocketHandler.handleLeaveRoom`: no-op when not in a room; otherwise
broadcast the leave notice to the current room, then clear the room field. -/
def handleLeaveRoom (st : BroadcastState) (cid : String) (now : Int) :
    BroadcastState :=
  let roomID := clientRoom st cid
  if roomID = "" then st
  else
    let msg := leaveNotice (clientName st cid)
    let st1 := (BroadcastToRoom st roomID msg now).state
    { st1 with clients := updateClient st1.clients cid (Client.setRoomID "") }

/-- `WebSocketHandler.handleJoinRoom`: implicit leave when already in a room,
set the new room field, then broadcast the join notice to the new room. -/
def handleJoinRoom (st : BroadcastState) (cid : String) (roomID : String)
    (now : Int) : BroadcastState :=
  let st1 := if clientRoom st cid ≠ "" then handleLeaveRoom st cid now else st
  let st2 :=
    { st1 with clients := updateClient st1.clients cid (Client.setRoomID roomID) }
  (BroadcastToRoom st2 roomID (joinNotice (clientName st2 cid)) now).state

/-- `WebSocketHandler.handlePrivateMessage`: wrap the content with sender and
time and forward to `SendPrivateMessage`. -/
def handlePrivateMessage (st : BroadcastState) (cid : String)
    (p : MessagePayload) (now : Int) : BroadcastState :=
  (SendPrivateMessage st p.target (mkPrivateJson p.content (clientName st cid) now) now).state

/-- `WebSocketHandler.processTextMessage`.  `parsed` is the result of the
`json.Unmarshal` attempt on the raw frame `raw` (`none` = parse failure).
Control messages dispatch only when their conditions hold; everything else
falls through to the plain-chat broadcast. -/
def processTextMessage (st : BroadcastState) (cid : String)
    (parsed : Option MessagePayload) (raw : String) (now : Int) :
    HandlerAction × BroadcastState :=
  let fallthru :=
    let roomID := clientRoom st cid
    if roomID ≠ "" then
      (HandlerAction.chatToRoom roomID, (BroadcastToRoom st roomID raw now).state)
    else
      (HandlerAction.chatToAll, (BroadcastMessage st raw now).state)
  match parsed with
  | none => fallthru
  | some p =>
    if p.type = "private" then
      if p.target ≠ "" then
        (.privateMsg p.target, handlePrivateMessage st cid p now)
      else fallthru
    else if p.type = "join_room" then
      if p.target ≠ "" then
        (.joinedRoom p.target, handleJoinRoom st cid p.target now)
      else fallthru
    else if p.type = "leave_room" then
      (.leftRoom, handleLeaveRoom st cid now)
    else fallthru

/-! ## Operation sequences used in the claims. -/

/-- One registry operation of a C5-style `Add`/`Remove` sequence. -/
inductive RepoOp where
  | addOp (c : Option Client)
  | removeOp (id : String)

/-- Run one registry operation, counting successful adds and removes. -/
def runRepoOp (acc : List Client × Nat × Nat) (op : RepoOp) :
    List Client × Nat × Nat :=
  match op with
  | .addOp c =>
    match ClientRepository.Add acc.1 c with
    | .ok cs => (cs, acc.2.1 + 1, acc.2.2)
    | .error _ => acc
  | .removeOp i =>
    match ClientRepository.Remove acc.1 i with
    | .ok cs => (cs, acc.2.1, acc.2.2 + 1)
    | .error _ => acc

/-- Run a sequence of registry operations from the empty registry. -/
def runRepoOps (ops : List RepoOp) : List Client × Nat × Nat :=
  ops.foldl runRepoOp ([], 0, 0)

/-- A broadcast-service operation that may run after a broadcast (used to
state that a deactivated connection stays excluded). -/
inductive SvcOp where
  | bcastAll (msg : String) (now : Int)
  | bcastRoom (roomID msg : String) (now : Int)
  | sendPrivate (target msg : String) (now : Int)
  | removeOp (id : String)

/-- Run one broadcast-service operation (discarding its error). -/
def runSvcOp (st : BroadcastState) : SvcOp → BroadcastState
  | .bcastAll m n => (BroadcastMessage st m n).state
  | .bcastRoom r m n => (BroadcastToRoom st r m n).state
  | .sendPrivate t m n => (SendPrivateMessage st t m n).state
  | .removeOp i => (RemoveClient st i).2

/-- Run a sequence of broadcast-service operations. -/
def runSvcOps (st : BroadcastState) (ops : List SvcOp) : BroadcastState :=
  ops.foldl runSvcOp st

/-- Well-formedness of the registry: ids are pairwise distinct (Go's map
guarantees one entry per key). -/
def WF (st : BroadcastState) : Prop :=
  (st.clients.map (fun c => c.id)).Nodup

/-- Ids of the currently active clients. -/
def activeIds (st : BroadcastState) : List String :=
  (ClientRepository.GetActiveClients st.clients).map (fun c => c.id)

/-- State part of the `BroadcastMessage` fan-out loop. -/
def fanOutS (now : Int) (s : BroadcastState) (targets : List Client) :
    BroadcastState :=
  targets.foldl (writeStep now) s

/-- State part of the `BroadcastToRoom` fan-out loop. -/
def fanOutRoomS (roomID : String) (now : Int) (s : BroadcastState)
    (targets : List Client) : BroadcastState :=
  targets.foldl (fun s c => if c.roomID = roomID then writeStep now s c else s) s

/-- No registry entry with this id is active. -/
def NoneActive (cs : List Client) (cid : String) : Prop :=
  ∀ x ∈ cs, x.id = cid → x.isActive = false

/-- `cs'` arises from `cs` by id-preserving, never-activating edits and
deletions. -/
def Weakens (cs cs' : List Client) : Prop :=
  ∀ y ∈ cs', ∃ x ∈ cs, y.id = x.id ∧ (y.isActive = true → x.isActive = true)

/-- Concrete fixture: client A, active in room "lobby", writes succeed. -/
def cA : Client := ⟨"A", "alice", "lobby", true, 0, 0, false, false⟩

/-- Concrete fixture: client B, active in room "lobby", writes succeed. -/
def cB : Client := ⟨"B", "bob", "lobby", true, 0, 0, false, false⟩

/-- Concrete fixture: client C, active with no room, writes succeed. -/
def cC : Client := ⟨"C", "carol", "", true, 0, 0, false, false⟩

/-- Concrete fixture: client B with a failing transport. -/
def cBfail : Client := ⟨"B", "bob", "lobby", true, 0, 0, true, false⟩

/-- Fixture registry: A and B in "lobby", C roomless, empty log, bound 100. -/
def stABC : BroadcastState :=
  { clients := [cA, cB, cC], messageLog := fun _ => [], maxLogSize := 100 }

/-- Fixture registry like `stABC` but with B's transport failing. -/
def stBfail : BroadcastState :=
  { clients := [cA, cBfail, cC], messageLog := fun _ => [], maxLogSize := 100 }

/-- Fixture message `n` for the bound-3 FIFO scenario (room "r1"). -/
def fifoMsg (n : Int) : ChatMessage := ⟨.TextMessage, toString n, "", "r1", n⟩

/-- Fixture: a roomless active client named "u" whose writes succeed. -/
def cU : Client := ⟨"A", "u", "", true, 0, 0, false, false⟩

/-- Fixture registry holding only `cU`. -/
def stJoin : BroadcastState :=
  { clients := [cU], messageLog := fun _ => [], maxLogSize := 100 }

/-! ## Basic lemmas about clients and registry updates. -/

@[simp] theorem handleClientError_id (c : Client) : (handleClientError c).id = c.id := rfl

@[simp] theorem handleClientError_isActive (c : Client) :
    (handleClientError c).isActive = false := rfl

@[simp] theorem updateActivity_id (now : Int) (c : Client) :
    (c.updateActivity now).id = c.id := rfl

@[simp] theorem updateActivity_isActive (now : Int) (c : Client) :
    (c.updateActivity now).isActive = c.isActive := rfl

@[simp] theorem updateActivity_roomID (now : Int) (c : Client) :
    (c.updateActivity now).roomID = c.roomID := rfl

@[simp] theorem applyWrite_id (now : Int) (c : Client) :
    (applyWrite now c).id = c.id := by
  unfold applyWrite; split <;> rfl

@[simp] theorem setRoomID_id (r : String) (c : Client) :
    (c.setRoomID r).id = c.id := rfl

@[simp] theorem setRoomID_isActive (r : String) (c : Client) :
    (c.setRoomID r).isActive = c.isActive := rfl

@[simp] theorem setRoomID_roomID (r : String) (c : Client) :
    (c.setRoomID r).roomID = r := rfl

@[simp] theorem setRoomID_userName (r : String) (c : Client) :
    (c.setRoomID r).userName = c.userName := rfl

@[simp] theorem setRoomID_connWriteFails (r : String) (c : Client) :
    (c.setRoomID r).connWriteFails = c.connWriteFails := rfl

@[simp] theorem updateActivity_userName (now : Int) (c : Client) :
    (c.updateActivity now).userName = c.userName := rfl

@[simp] theorem updateActivity_connWriteFails (now : Int) (c : Client) :
    (c.updateActivity now).connWriteFails = c.connWriteFails := rfl

theorem updateClient_map_id (cs : List Client) (cid : String) (f : Client → Client)
    (hf : ∀ x, (f x).id = x.id) :
    (updateClient cs cid f).map (fun c => c.id) = cs.map (fun c => c.id) := by
  unfold updateClient
  rw [List.map_map]
  apply List.map_congr_left
  intro x _
  by_cases h : x.id = cid <;> simp [h, hf]

theorem find?_updateClient (cs : List Client) (cid t : String) (f : Client → Client)
    (hf : ∀ x, (f x).id = x.id) :
    (updateClient cs cid f).find? (fun x => decide (x.id = t)) =
      ((cs.find? (fun x => decide (x.id = t))).map
        (fun x => if x.id = cid then f x else x)) := by
  induction cs with
  | nil => rfl
  | cons h tl ih =>
    have hid : (if h.id = cid then f h else h).id = h.id := by
      by_cases hc : h.id = cid
      · rw [if_pos hc, hf]
      · rw [if_neg hc]
    simp only [updateClient, List.map_cons] at *
    by_cases hh : h.id = t
    · rw [List.find?_cons_of_pos _ (by rw [hid, hh]; simp),
        List.find?_cons_of_pos _ (by rw [hh]; simp)]
      rfl
    · rw [List.find?_cons_of_neg _ (by rw [hid]; simp [hh]),
        List.find?_cons_of_neg _ (by simp [hh])]
      exact ih

theorem find?_id_of_mem_nodup (cs : List Client) (c : Client)
    (hnd : (cs.map (fun x => x.id)).Nodup) (hc : c ∈ cs) :
    cs.find? (fun x => decide (x.id = c.id)) = some c := by
  induction cs with
  | nil => cases hc
  | cons h tl ih =>
    rcases List.mem_cons.mp hc with hc | hc
    · subst hc
      exact List.find?_cons_of_pos _ (by simp)
    · have hne : h.id ≠ c.id := by
        intro he
        have hmem : c.id ∈ tl.map (fun x => x.id) := List.mem_map_of_mem _ hc
        rw [← he] at hmem
        exact (List.nodup_cons.mp hnd).1 hmem
      rw [List.find?_cons_of_neg _ (by simp [hne])]
      exact ih (List.nodup_cons.mp hnd).2 hc

/-! ## Characterizing the fan-out loops. -/

@[simp] theorem fanOutS_nil (now : Int) (s : BroadcastState) :
    fanOutS now s [] = s := rfl

@[simp] theorem fanOutS_cons (now : Int) (s : BroadcastState) (c : Client)
    (tl : List Client) :
    fanOutS now s (c :: tl) = fanOutS now (writeStep now s c) tl := rfl

@[simp] theorem fanOutRoomS_nil (r : String) (now : Int) (s : BroadcastState) :
    fanOutRoomS r now s [] = s := rfl

@[simp] theorem fanOutRoomS_cons (r : String) (now : Int) (s : BroadcastState)
    (c : Client) (tl : List Client) :
    fanOutRoomS r now s (c :: tl) =
      fanOutRoomS r now (if c.roomID = r then writeStep now s c else s) tl := rfl

theorem fanOut_eq_aux (now : Int) (ts : List Client) :
    ∀ (s : BroadcastState) (l : List String),
      ts.foldl (fun acc c => (writeStep now acc.1 c, acc.2 ++ [c.id])) (s, l) =
        (fanOutS now s ts, l ++ ts.map (fun c => c.id)) := by
  induction ts with
  | nil => intro s l; simp
  | cons c tl ih =>
    intro s l
    simp only [List.foldl_cons]
    rw [ih (writeStep now s c) (l ++ [c.id])]
    simp

theorem fanOut_eq (now : Int) (s : BroadcastState) (ts : List Client) :
    fanOut now s ts = (fanOutS now s ts, ts.map (fun c => c.id)) := by
  simpa using fanOut_eq_aux now ts s []

theorem fanOutRoom_eq_aux (r : String) (now : Int) (ts : List Client) :
    ∀ (s : BroadcastState) (l : List String),
      ts.foldl
        (fun acc c =>
          if c.roomID = r then (writeStep now acc.1 c, acc.2 ++ [c.id]) else acc)
        (s, l) =
        (fanOutRoomS r now s ts,
          l ++ (ts.filter (fun c => decide (c.roomID = r))).map (fun c => c.id)) := by
  induction ts with
  | nil => intro s l; simp
  | cons c tl ih =>
    intro s l
    simp only [List.foldl_cons]
    by_cases hc : c.roomID = r
    · rw [if_pos hc, ih (writeStep now s c) (l ++ [c.id])]
      simp [hc, List.filter_cons]
    · rw [if_neg hc, ih s l]
      simp [hc, List.filter_cons]

theorem fanOutRoom_eq (r : String) (now : Int) (s : BroadcastState)
    (ts : List Client) :
    fanOutRoom r now s ts =
      (fanOutRoomS r now s ts,
        (ts.filter (fun c => decide (c.roomID = r))).map (fun c => c.id)) := by
  simpa using fanOutRoom_eq_aux r now ts s []

@[simp] theorem writeStep_log (now : Int) (s : BroadcastState) (c : Client) :
    (writeStep now s c).messageLog = s.messageLog := by
  unfold writeStep; split <;> rfl

@[simp] theorem writeStep_max (now : Int) (s : BroadcastState) (c : Client) :
    (writeStep now s c).maxLogSize = s.maxLogSize := by
  unfold writeStep; split <;> rfl

theorem writeStep_map_id (now : Int) (s : BroadcastState) (c : Client) :
    (writeStep now s c).clients.map (fun x => x.id) =
      s.clients.map (fun x => x.id) := by
  unfold writeStep
  split <;> exact updateClient_map_id _ _ _ (fun x => rfl)

theorem fanOutS_log (now : Int) (ts : List Client) :
    ∀ s : BroadcastState, (fanOutS now s ts).messageLog = s.messageLog := by
  induction ts with
  | nil => intro s; rfl
  | cons c tl ih => intro s; rw [fanOutS_cons, ih, writeStep_log]

theorem fanOutS_max (now : Int) (ts : List Client) :
    ∀ s : BroadcastState, (fanOutS now s ts).maxLogSize = s.maxLogSize := by
  induction ts with
  | nil => intro s; rfl
  | cons c tl ih => intro s; rw [fanOutS_cons, ih, writeStep_max]

theorem fanOutS_map_id (now : Int) (ts : List Client) :
    ∀ s : BroadcastState,
      (fanOutS now s ts).clients.map (fun x => x.id) =
        s.clients.map (fun x => x.id) := by
  induction ts with
  | nil => intro s; rfl
  | cons c tl ih => intro s; rw [fanOutS_cons, ih, writeStep_map_id]

theorem fanOutRoomS_log (r : String) (now : Int) (ts : List Client) :
    ∀ s : BroadcastState, (fanOutRoomS r now s ts).messageLog = s.messageLog := by
  induction ts with
  | nil => intro s; rfl
  | cons c tl ih =>
    intro s
    rw [fanOutRoomS_cons, ih]
    by_cases hc : c.roomID = r
    · rw [if_pos hc, writeStep_log]
    · rw [if_neg hc]

theorem fanOutRoomS_max (r : String) (now : Int) (ts : List Client) :
    ∀ s : BroadcastState, (fanOutRoomS r now s ts).maxLogSize = s.maxLogSize := by
  induction ts with
  | nil => intro s; rfl
  | cons c tl ih =>
    intro s
    rw [fanOutRoomS_cons, ih]
    by_cases hc : c.roomID = r
    · rw [if_pos hc, writeStep_max]
    · rw [if_neg hc]

theorem fanOutRoomS_map_id (r : String) (now : Int) (ts : List Client) :
    ∀ s : BroadcastState,
      (fanOutRoomS r now s ts).clients.map (fun x => x.id) =
        s.clients.map (fun x => x.id) := by
  induction ts with
  | nil => intro s; rfl
  | cons c tl ih =>
    intro s
    rw [fanOutRoomS_cons, ih]
    by_cases hc : c.roomID = r
    · rw [if_pos hc, writeStep_map_id]
    · rw [if_neg hc]

/-! ## Locating a client after the loops. -/

theorem findClient_updateClient_self (s : BroadcastState) (cid : String)
    (f : Client → Client) (hf : ∀ x, (f x).id = x.id) :
    findClient { s with clients := updateClient s.clients cid f } cid =
      (findClient s cid).map f := by
  show (updateClient s.clients cid f).find? _ = _
  rw [find?_updateClient _ _ _ _ hf]
  cases hx : s.clients.find? (fun x => decide (x.id = cid)) with
  | none => simp [findClient, hx]
  | some x =>
    have hxid : x.id = cid := by simpa using List.find?_some hx
    simp [findClient, hx, if_pos hxid]

theorem findClient_updateClient_other (s : BroadcastState) (cid' cid : String)
    (f : Client → Client) (hf : ∀ x, (f x).id = x.id) (h : cid' ≠ cid) :
    findClient { s with clients := updateClient s.clients cid' f } cid =
      findClient s cid := by
  show (updateClient s.clients cid' f).find? _ = _
  rw [find?_updateClient _ _ _ _ hf]
  cases hx : s.clients.find? (fun x => decide (x.id = cid)) with
  | none => simp [findClient, hx]
  | some x =>
    have hxid : x.id = cid := by simpa using List.find?_some hx
    have hne : ¬ x.id = cid' := by rw [hxid]; exact fun he => h he.symm
    simp [findClient, hx, if_neg hne]

theorem findClient_writeStep_self (now : Int) (s : BroadcastState) (c : Client)
    (hfind : findClient s c.id = some c) :
    findClient (writeStep now s c) c.id = some (applyWrite now c) := by
  unfold writeStep applyWrite
  by_cases hw : c.connWriteFails = true
  · rw [if_pos hw, if_pos hw,
      findClient_updateClient_self s c.id handleClientError (fun x => rfl), hfind]
    rfl
  · rw [if_neg hw, if_neg hw,
      findClient_updateClient_self s c.id (Client.updateActivity now) (fun x => rfl),
      hfind]
    rfl

theorem findClient_writeStep_other (now : Int) (s : BroadcastState) (t : Client)
    (cid : String) (h : t.id ≠ cid) :
    findClient (writeStep now s t) cid = findClient s cid := by
  unfold writeStep
  by_cases hw : t.connWriteFails = true
  · rw [if_pos hw,
      findClient_updateClient_other s t.id cid handleClientError (fun x => rfl) h]
  · rw [if_neg hw,
      findClient_updateClient_other s t.id cid (Client.updateActivity now)
        (fun x => rfl) h]

theorem findClient_fanOutS_notmem (now : Int) (ts : List Client) :
    ∀ (s : BroadcastState) (cid : String), cid ∉ ts.map (fun c => c.id) →
      findClient (fanOutS now s ts) cid = findClient s cid := by
  induction ts with
  | nil => intro s cid _; rfl
  | cons c tl ih =>
    intro s cid hmem
    simp only [List.map_cons, List.mem_cons, not_or] at hmem
    rw [fanOutS_cons, ih _ _ hmem.2,
      findClient_writeStep_other _ _ _ _ (fun he => hmem.1 he.symm)]

theorem findClient_fanOutS_mem (now : Int) (ts : List Client) :
    ∀ (s : BroadcastState) (c : Client),
      (ts.map (fun x => x.id)).Nodup → c ∈ ts → findClient s c.id = some c →
      findClient (fanOutS now s ts) c.id = some (applyWrite now c) := by
  induction ts with
  | nil => intro s c _ hc; cases hc
  | cons t tl ih =>
    intro s c hnd hc hfind
    rcases List.mem_cons.mp hc with hc | hc
    · subst hc
      rw [fanOutS_cons,
        findClient_fanOutS_notmem _ _ _ _ (List.nodup_cons.mp hnd).1]
      exact findClient_writeStep_self now s c hfind
    · have hne : t.id ≠ c.id := by
        intro he
        have hmm : t.id ∈ tl.map (fun x => x.id) := by
          rw [he]; exact List.mem_map_of_mem _ hc
        exact (List.nodup_cons.mp hnd).1 hmm
      rw [fanOutS_cons]
      exact ih _ _ (List.nodup_cons.mp hnd).2 hc
        (by rw [findClient_writeStep_other _ _ _ _ hne]; exact hfind)

theorem findClient_fanOutRoomS_notmem (r : String) (now : Int) (ts : List Client) :
    ∀ (s : BroadcastState) (cid : String), cid ∉ ts.map (fun c => c.id) →
      findClient (fanOutRoomS r now s ts) cid = findClient s cid := by
  induction ts with
  | nil => intro s cid _; rfl
  | cons c tl ih =>
    intro s cid hmem
    simp only [List.map_cons, List.mem_cons, not_or] at hmem
    rw [fanOutRoomS_cons, ih _ _ hmem.2]
    by_cases hc : c.roomID = r
    · rw [if_pos hc,
        findClient_writeStep_other _ _ _ _ (fun he => hmem.1 he.symm)]
    · rw [if_neg hc]

theorem findClient_fanOutRoomS_mem (r : String) (now : Int) (ts : List Client) :
    ∀ (s : BroadcastState) (c : Client),
      (ts.map (fun x => x.id)).Nodup → c ∈ ts → c.roomID = r →
      findClient s c.id = some c →
      findClient (fanOutRoomS r now s ts) c.id = some (applyWrite now c) := by
  induction ts with
  | nil => intro s c _ hc; cases hc
  | cons t tl ih =>
    intro s c hnd hc hroom hfind
    rcases List.mem_cons.mp hc with hc | hc
    · subst hc
      rw [fanOutRoomS_cons, if_pos hroom,
        findClient_fanOutRoomS_notmem _ _ _ _ _ (List.nodup_cons.mp hnd).1]
      exact findClient_writeStep_self now s c hfind
    · have hne : t.id ≠ c.id := by
        intro he
        have hmm : t.id ∈ tl.map (fun x => x.id) := by
          rw [he]; exact List.mem_map_of_mem _ hc
        exact (List.nodup_cons.mp hnd).1 hmm
      rw [fanOutRoomS_cons]
      refine ih _ _ (List.nodup_cons.mp hnd).2 hc hroom ?_
      by_cases ht : t.roomID = r
      · rw [if_pos ht, findClient_writeStep_other _ _ _ _ hne]; exact hfind
      · rw [if_neg ht]; exact hfind

/-! ## Message-log lemmas. -/

@[simp] theorem logMessage_clients (st : BroadcastState) (m : ChatMessage) :
    (logMessage st m).clients = st.clients := rfl

@[simp] theorem logMessage_max (st : BroadcastState) (m : ChatMessage) :
    (logMessage st m).maxLogSize = st.maxLogSize := rfl

theorem GetMessageHistory_logMessage (st : BroadcastState) (m : ChatMessage)
    (r : String) :
    GetMessageHistory (logMessage st m) r =
      if logKey r = logKey m.roomID then
        (if st.maxLogSize < (st.messageLog (logKey m.roomID) ++ [m]).length
         then (st.messageLog (logKey m.roomID) ++ [m]).drop 1
         else st.messageLog (logKey m.roomID) ++ [m])
      else st.messageLog (logKey r) := rfl

theorem GetMessageHistory_logMessage_self (st : BroadcastState) (m : ChatMessage)
    (hlen : (GetMessageHistory st m.roomID).length < st.maxLogSize) :
    GetMessageHistory (logMessage st m) m.roomID =
      GetMessageHistory st m.roomID ++ [m] := by
  rw [GetMessageHistory_logMessage, if_pos rfl, if_neg ?hno]
  case hno =>
    simp only [GetMessageHistory] at hlen
    simp only [List.length_append, List.length_singleton]
    omega
  rfl

theorem GetMessageHistory_logMessage_ne (st : BroadcastState) (m : ChatMessage)
    (r : String) (h : logKey r ≠ logKey m.roomID) :
    GetMessageHistory (logMessage st m) r = GetMessageHistory st r := by
  rw [GetMessageHistory_logMessage, if_neg h]; rfl

theorem logMessage_bound (st : BroadcastState) (m : ChatMessage)
    (hb : ∀ k, (st.messageLog k).length ≤ st.maxLogSize) (k : String) :
    ((logMessage st m).messageLog k).length ≤ st.maxLogSize := by
  have hmain : (logMessage st m).messageLog k =
      if k = logKey m.roomID then
        (if st.maxLogSize < (st.messageLog (logKey m.roomID) ++ [m]).length
         then (st.messageLog (logKey m.roomID) ++ [m]).drop 1
         else st.messageLog (logKey m.roomID) ++ [m])
      else st.messageLog k := rfl
  rw [hmain]
  by_cases hk : k = logKey m.roomID
  · rw [if_pos hk]
    have hb1 := hb (logKey m.roomID)
    by_cases ho : st.maxLogSize < (st.messageLog (logKey m.roomID) ++ [m]).length
    · rw [if_pos ho]
      simp only [List.length_drop, List.length_append, List.length_singleton]
      omega
    · rw [if_neg ho]
      simp only [List.length_append, List.length_singleton] at ho ⊢
      omega
  · rw [if_neg hk]; exact hb k

/-! ## Active-set lemmas. -/

theorem mem_getActive {clients : List Client} {c : Client} (hc : c ∈ clients)
    (ha : c.isActive = true) :
    c ∈ ClientRepository.GetActiveClients clients :=
  List.mem_filter.mpr ⟨hc, ha⟩

theorem getActive_sub {clients : List Client} {c : Client}
    (hc : c ∈ ClientRepository.GetActiveClients clients) :
    c ∈ clients ∧ c.isActive = true :=
  List.mem_filter.mp hc

theorem getActive_ne_nil {clients : List Client} {c : Client} (hc : c ∈ clients)
    (ha : c.isActive = true) :
    ClientRepository.GetActiveClients clients ≠ [] :=
  List.ne_nil_of_mem (mem_getActive hc ha)

theorem getActive_nodup {clients : List Client}
    (h : (clients.map (fun c => c.id)).Nodup) :
    ((ClientRepository.GetActiveClients clients).map (fun c => c.id)).Nodup :=
  h.sublist ((List.filter_sublist _).map _)

/-! ## Success-path unfoldings of the broadcast operations. -/

theorem BroadcastMessage_success (st : BroadcastState) (msg : String) (now : Int)
    (hm : ¬ msg = "")
    (hne : ¬ ClientRepository.GetActiveClients st.clients = []) :
    BroadcastMessage st msg now =
      ⟨none,
        fanOutS now (logMessage st ⟨.TextMessage, msg, "", "", now⟩)
          (ClientRepository.GetActiveClients st.clients),
        (ClientRepository.GetActiveClients st.clients).map (fun c => c.id)⟩ := by
  simp only [BroadcastMessage, if_neg hm, if_neg hne, fanOut_eq]

theorem BroadcastToRoom_parts (st : BroadcastState) (r msg : String) (now : Int)
    (hm : ¬ msg = "") (hr : ¬ r = "")
    (hne : ¬ ClientRepository.GetActiveClients st.clients = []) :
    BroadcastToRoom st r msg now =
      ⟨if ((ClientRepository.GetActiveClients st.clients).filter
            (fun c => decide (c.roomID = r))).length = 0
        then some .errNoActiveClientsInRoom else none,
        fanOutRoomS r now (logMessage st ⟨.TextMessage, msg, "", r, now⟩)
          (ClientRepository.GetActiveClients st.clients),
        ((ClientRepository.GetActiveClients st.clients).filter
            (fun c => decide (c.roomID = r))).map (fun c => c.id)⟩ := by
  simp only [BroadcastToRoom, if_neg hm, if_neg hr, if_neg hne, fanOutRoom_eq,
    List.length_map]
  by_cases h : ((ClientRepository.GetActiveClients st.clients).filter
      (fun c => decide (c.roomID = r))).length = 0
  · rw [if_pos h, if_pos h]
  · rw [if_neg h, if_neg h]

/-! ## A deactivated connection stays deactivated. -/

theorem weakens_refl (cs : List Client) : Weakens cs cs :=
  fun y hy => ⟨y, hy, rfl, fun h => h⟩

theorem weakens_trans {cs cs' cs'' : List Client} (h1 : Weakens cs cs')
    (h2 : Weakens cs' cs'') : Weakens cs cs'' := by
  intro y hy
  obtain ⟨z, hz, hzy, hz2⟩ := h2 y hy
  obtain ⟨x, hx, hxz, hx2⟩ := h1 z hz
  exact ⟨x, hx, hzy.trans hxz, fun h => hx2 (hz2 h)⟩

theorem weakens_updateClient (cs : List Client) (cid : String) (f : Client → Client)
    (hid : ∀ x, (f x).id = x.id)
    (hact : ∀ x, (f x).isActive = true → x.isActive = true) :
    Weakens cs (updateClient cs cid f) := by
  intro y hy
  obtain ⟨x, hx, hxy⟩ := List.mem_map.mp hy
  by_cases hc : x.id = cid
  · rw [if_pos hc] at hxy
    exact ⟨x, hx, by rw [← hxy, hid], fun h => hact x (hxy ▸ h)⟩
  · rw [if_neg hc] at hxy
    exact ⟨x, hx, by rw [← hxy], fun h => hxy ▸ h⟩

theorem weakens_writeStep (now : Int) (s : BroadcastState) (c : Client) :
    Weakens s.clients (writeStep now s c).clients := by
  unfold writeStep
  by_cases hw : c.connWriteFails = true
  · rw [if_pos hw]
    exact weakens_updateClient _ _ _ (fun x => rfl)
      (fun x h => by cases h)
  · rw [if_neg hw]
    exact weakens_updateClient _ _ _ (fun x => rfl) (fun x h => h)

theorem weakens_fanOutS (now : Int) (ts : List Client) :
    ∀ s : BroadcastState, Weakens s.clients (fanOutS now s ts).clients := by
  induction ts with
  | nil => intro s; exact weakens_refl _
  | cons c tl ih =>
    intro s
    rw [fanOutS_cons]
    exact weakens_trans (weakens_writeStep now s c) (ih _)

theorem weakens_fanOutRoomS (r : String) (now : Int) (ts : List Client) :
    ∀ s : BroadcastState, Weakens s.clients (fanOutRoomS r now s ts).clients := by
  induction ts with
  | nil => intro s; exact weakens_refl _
  | cons c tl ih =>
    intro s
    rw [fanOutRoomS_cons]
    by_cases hc : c.roomID = r
    · rw [if_pos hc]
      exact weakens_trans (weakens_writeStep now s c) (ih _)
    · rw [if_neg hc]; exact ih _

theorem weakens_filter (cs : List Client) (p : Client → Bool) :
    Weakens cs (cs.filter p) :=
  fun y hy => ⟨y, (List.mem_filter.mp hy).1, rfl, fun h => h⟩

theorem noneActive_of_weakens {cs cs' : List Client} {cid : String}
    (h : NoneActive cs cid) (hw : Weakens cs cs') : NoneActive cs' cid := by
  intro y hy hid
  cases hact : y.isActive with
  | false => rfl
  | true =>
    obtain ⟨x, hx, hxy, himp⟩ := hw y hy
    have hxa : x.isActive = true := himp hact
    have hxf : x.isActive = false := h x hx (by rw [← hxy, hid])
    rw [hxf] at hxa; cases hxa

theorem weakens_state_BroadcastMessage (st : BroadcastState) (msg : String)
    (now : Int) : Weakens st.clients (BroadcastMessage st msg now).state.clients := by
  by_cases hm : msg = ""
  · simp only [BroadcastMessage, if_pos hm]; exact weakens_refl _
  by_cases hne : ClientRepository.GetActiveClients st.clients = []
  · simp only [BroadcastMessage, if_neg hm, if_pos hne]; exact weakens_refl _
  · rw [BroadcastMessage_success st msg now hm hne]
    have h := weakens_fanOutS now (ClientRepository.GetActiveClients st.clients)
      (logMessage st ⟨.TextMessage, msg, "", "", now⟩)
    rw [logMessage_clients] at h
    exact h

theorem weakens_state_BroadcastToRoom (st : BroadcastState) (r msg : String)
    (now : Int) : Weakens st.clients (BroadcastToRoom st r msg now).state.clients := by
  by_cases hm : msg = ""
  · simp only [BroadcastToRoom, if_pos hm]; exact weakens_refl _
  by_cases hr : r = ""
  · simp only [BroadcastToRoom, if_neg hm, if_pos hr]; exact weakens_refl _
  by_cases hne : ClientRepository.GetActiveClients st.clients = []
  · simp only [BroadcastToRoom, if_neg hm, if_neg hr, if_pos hne]
    exact weakens_refl _
  · rw [BroadcastToRoom_parts st r msg now hm hr hne]
    have h := weakens_fanOutRoomS r now (ClientRepository.GetActiveClients st.clients)
      (logMessage st ⟨.TextMessage, msg, "", r, now⟩)
    rw [logMessage_clients] at h
    exact h

theorem weakens_state_SendPrivateMessage (st : BroadcastState) (t msg : String)
    (now : Int) : Weakens st.clients (SendPrivateMessage st t msg now).state.clients := by
  unfold SendPrivateMessage
  by_cases hm : msg = ""
  · rw [if_pos hm]; exact weakens_refl _
  rw [if_neg hm]
  cases hget : ClientRepository.Get st.clients t with
  | error e => exact weakens_refl _
  | ok c =>
    by_cases ha : c.isActive = true
    · simp only [ha, Bool.not_true]
      by_cases hw : c.connWriteFails = true
      · simp only [if_pos hw, Bool.false_eq_true, if_false]
        exact weakens_updateClient _ _ _ (fun x => rfl) (fun x h => by cases h)
      · simp only [if_neg hw, Bool.false_eq_true, if_false]
        exact weakens_updateClient _ _ _ (fun x => rfl) (fun x h => h)
    · have ha' : c.isActive = false := by
        cases hh : c.isActive
        · rfl
        · exact absurd hh ha
      simp only [ha', Bool.not_false, if_true]
      exact weakens_refl _

theorem weakens_state_RemoveClient (st : BroadcastState) (i : String) :
    Weakens st.clients (RemoveClient st i).2.clients := by
  unfold RemoveClient ClientRepository.Remove
  by_cases h : st.clients.any (fun x => decide (x.id = i)) = true
  · rw [if_pos h]; exact weakens_filter _ _
  · rw [if_neg h]; exact weakens_refl _

theorem noneActive_runSvcOp (st : BroadcastState) (op : SvcOp) (cid : String)
    (h : NoneActive st.clients cid) : NoneActive (runSvcOp st op).clients cid := by
  cases op with
  | bcastAll m n => exact noneActive_of_weakens h (weakens_state_BroadcastMessage st m n)
  | bcastRoom r m n => exact noneActive_of_weakens h (weakens_state_BroadcastToRoom st r m n)
  | sendPrivate t m n => exact noneActive_of_weakens h (weakens_state_SendPrivateMessage st t m n)
  | removeOp i => exact noneActive_of_weakens h (weakens_state_RemoveClient st i)

theorem noneActive_runSvcOps (ops : List SvcOp) :
    ∀ (st : BroadcastState) (cid : String), NoneActive st.clients cid →
      NoneActive (runSvcOps st ops).clients cid := by
  induction ops with
  | nil => intro st cid h; exact h
  | cons op tl ih =>
    intro st cid h
    exact ih (runSvcOp st op) cid (noneActive_runSvcOp st op cid h)

theorem notMem_activeIds {st : BroadcastState} {cid : String}
    (h : NoneActive st.clients cid) : cid ∉ activeIds st := by
  intro hmem
  obtain ⟨x, hx, hxid⟩ := List.mem_map.mp hmem
  obtain ⟨hxcs, hxa⟩ := getActive_sub hx
  have hxf := h x hxcs hxid
  rw [hxf] at hxa; cases hxa

theorem notMem_roomIds {st : BroadcastState} {r cid : String}
    (h : NoneActive st.clients cid) :
    cid ∉ (GetClientsInRoom st r).map (fun c => c.id) := by
  intro hmem
  obtain ⟨x, hx, hxid⟩ := List.mem_map.mp hmem
  obtain ⟨hxcs, hxa⟩ := getActive_sub (List.mem_filter.mp hx).1
  have hxf := h x hxcs hxid
  rw [hxf] at hxa; cases hxa

theorem noneActive_of_findClient {st : BroadcastState} {cid : String} {y : Client}
    (hWF : WF st) (hf : findClient st cid = some y) (hy : y.isActive = false) :
    NoneActive st.clients cid := by
  intro x hx hxid
  have h1 := find?_id_of_mem_nodup st.clients x hWF hx
  rw [hxid] at h1
  have h2 : findClient st cid = some x := h1
  rw [hf] at h2
  cases h2
  exact hy

@[simp] theorem findClient_logMessage (st : BroadcastState) (m : ChatMessage)
    (cid : String) : findClient (logMessage st m) cid = findClient st cid := rfl

theorem WF_fanOutS (now : Int) (ts : List Client) (st : BroadcastState)
    (m : ChatMessage) (h : WF st) : WF (fanOutS now (logMessage st m) ts) := by
  show ((fanOutS now (logMessage st m) ts).clients.map (fun c => c.id)).Nodup
  rw [fanOutS_map_id, logMessage_clients]
  exact h

theorem WF_fanOutRoomS (r : String) (now : Int) (ts : List Client)
    (st : BroadcastState) (m : ChatMessage) (h : WF st) :
    WF (fanOutRoomS r now (logMessage st m) ts) := by
  show ((fanOutRoomS r now (logMessage st m) ts).clients.map (fun c => c.id)).Nodup
  rw [fanOutRoomS_map_id, logMessage_clients]
  exact h

/-! ## Claim theorems. -/

/-- C1: for both broadcast operations, every connection of the delivery set
gets a write attempt; a connection whose transport write fails is left
deactivated (active flag false, transport closed) and is excluded from
`GetActiveClients` and `GetClientsInRoom` in the post-state and after any
further service operations — one failed peer never aborts delivery to the
remaining recipients. -/
theorem c1_write_failure_is_local (st : BroadcastState) (msg roomID : String)
    (now : Int) (hWF : WF st) (hm : msg ≠ "") (hr : roomID ≠ "") :
    (∀ c ∈ ClientRepository.GetActiveClients st.clients,
      c.id ∈ (BroadcastMessage st msg now).attempted ∧
      (c.connWriteFails = true →
        findClient (BroadcastMessage st msg now).state c.id =
          some (handleClientError c) ∧
        ∀ ops : List SvcOp,
          c.id ∉ activeIds (runSvcOps (BroadcastMessage st msg now).state ops) ∧
          ∀ r', c.id ∉ (GetClientsInRoom
              (runSvcOps (BroadcastMessage st msg now).state ops) r').map
                (fun x => x.id))) ∧
    (∀ c ∈ (ClientRepository.GetActiveClients st.clients).filter
        (fun c => decide (c.roomID = roomID)),
      c.id ∈ (BroadcastToRoom st roomID msg now).attempted ∧
      (c.connWriteFails = true →
        findClient (BroadcastToRoom st roomID msg now).state c.id =
          some (handleClientError c) ∧
        ∀ ops : List SvcOp,
          c.id ∉ activeIds (runSvcOps (BroadcastToRoom st roomID msg now).state ops) ∧
          ∀ r', c.id ∉ (GetClientsInRoom
              (runSvcOps (BroadcastToRoom st roomID msg now).state ops) r').map
                (fun x => x.id))) := by
  by_cases hne : ClientRepository.GetActiveClients st.clients = []
  · constructor
    · intro c hc; rw [hne] at hc; cases hc
    · intro c hc; rw [hne] at hc; cases hc
  constructor
  · intro c hc
    rw [BroadcastMessage_success st msg now hm hne]
    refine ⟨List.mem_map_of_mem _ hc, fun hw => ?_⟩
    have hcmem : c ∈ st.clients := (getActive_sub hc).1
    have hfind0 : findClient st c.id = some c :=
      find?_id_of_mem_nodup st.clients c hWF hcmem
    have h2 := findClient_fanOutS_mem now
      (ClientRepository.GetActiveClients st.clients)
      (logMessage st ⟨.TextMessage, msg, "", "", now⟩) c
      (getActive_nodup hWF) hc (by rw [findClient_logMessage]; exact hfind0)
    have h3 : applyWrite now c = handleClientError c := by
      unfold applyWrite; rw [if_pos hw]
    have h4 : findClient
        (fanOutS now (logMessage st ⟨.TextMessage, msg, "", "", now⟩)
          (ClientRepository.GetActiveClients st.clients)) c.id =
        some (handleClientError c) := by rw [h2, h3]
    refine ⟨h4, fun ops => ?_⟩
    have hWF1 := WF_fanOutS now (ClientRepository.GetActiveClients st.clients)
      st ⟨.TextMessage, msg, "", "", now⟩ hWF
    have hNA := noneActive_of_findClient hWF1 h4 rfl
    have hNA2 := noneActive_runSvcOps ops _ c.id hNA
    exact ⟨notMem_activeIds hNA2, fun r' => notMem_roomIds hNA2⟩
  · intro c hc
    rw [BroadcastToRoom_parts st roomID msg now hm hr hne]
    have hcact : c ∈ ClientRepository.GetActiveClients st.clients :=
      (List.mem_filter.mp hc).1
    have hcroom : c.roomID = roomID :=
      of_decide_eq_true (List.mem_filter.mp hc).2
    refine ⟨List.mem_map_of_mem _ hc, fun hw => ?_⟩
    have hcmem : c ∈ st.clients := (getActive_sub hcact).1
    have hfind0 : findClient st c.id = some c :=
      find?_id_of_mem_nodup st.clients c hWF hcmem
    have h2 := findClient_fanOutRoomS_mem roomID now
      (ClientRepository.GetActiveClients st.clients)
      (logMessage st ⟨.TextMessage, msg, "", roomID, now⟩) c
      (getActive_nodup hWF) hcact hcroom
      (by rw [findClient_logMessage]; exact hfind0)
    have h3 : applyWrite now c = handleClientError c := by
      unfold applyWrite; rw [if_pos hw]
    have h4 : findClient
        (fanOutRoomS roomID now (logMessage st ⟨.TextMessage, msg, "", roomID, now⟩)
          (ClientRepository.GetActiveClients st.clients)) c.id =
        some (handleClientError c) := by rw [h2, h3]
    refine ⟨h4, fun ops => ?_⟩
    have hWF1 := WF_fanOutRoomS roomID now
      (ClientRepository.GetActiveClients st.clients) st
      ⟨.TextMessage, msg, "", roomID, now⟩ hWF
    have hNA := noneActive_of_findClient hWF1 h4 rfl
    have hNA2 := noneActive_runSvcOps ops _ c.id hNA
    exact ⟨notMem_activeIds hNA2, fun r' => notMem_roomIds hNA2⟩
/-- Witness for C1 at `stBfail`: during the room broadcast B's write fails,
B ends up deactivated and excluded from the active set, while the write to A
is still attempted. -/
theorem c1_write_failure_is_local_witness :
    WF stBfail ∧ ("hi" : String) ≠ "" ∧ ("lobby" : String) ≠ "" ∧
    "B" ∈ (BroadcastToRoom stBfail "lobby" "hi" 0).attempted ∧
    "A" ∈ (BroadcastToRoom stBfail "lobby" "hi" 0).attempted ∧
    "B" ∉ activeIds (BroadcastToRoom stBfail "lobby" "hi" 0).state := by
  have h := c1_write_failure_is_local stBfail "hi" "lobby" 0
    (by unfold WF; decide) (by decide) (by decide)
  refine ⟨by unfold WF; decide, by decide, by decide, ?_, ?_, ?_⟩
  · exact (h.2 cBfail (by decide)).1
  · exact (h.2 cA (by decide)).1
  · exact (((h.2 cBfail (by decide)).2 (by decide)).2 []).1

/-- C4: for a non-empty message (and non-empty room id), `BroadcastToRoom`
attempts a write exactly on the active clients whose room field equals the
room id, `BroadcastMessage` on every active client; concretely, with A and B
in "lobby" and C roomless the room broadcast reaches exactly A and B and the
global broadcast reaches A, B and C. -/
theorem c4_delivery_sets (st : BroadcastState) (r msg : String) (now : Int)
    (hm : msg ≠ "") (hr : r ≠ "") :
    (BroadcastToRoom st r msg now).attempted =
      ((ClientRepository.GetActiveClients st.clients).filter
        (fun c => decide (c.roomID = r))).map (fun c => c.id) ∧
    (BroadcastMessage st msg now).attempted =
      (ClientRepository.GetActiveClients st.clients).map (fun c => c.id) ∧
    (BroadcastToRoom stABC "lobby" "hi" 0).attempted = ["A", "B"] ∧
    (BroadcastMessage stABC "hi2" 0).attempted = ["A", "B", "C"] := by
  refine ⟨?_, ?_, by decide, by decide⟩
  · by_cases hne : ClientRepository.GetActiveClients st.clients = []
    · simp [BroadcastToRoom, hm, hr, hne]
    · rw [BroadcastToRoom_parts st r msg now hm hr hne]
  · by_cases hne : ClientRepository.GetActiveClients st.clients = []
    · simp [BroadcastMessage, hm, hne]
    · rw [BroadcastMessage_success st msg now hm hne]

/-- Witness for C4 at `stABC`. -/
theorem c4_delivery_sets_witness :
    ("hi" : String) ≠ "" ∧ ("lobby" : String) ≠ "" ∧
    (BroadcastToRoom stABC "lobby" "hi" 0).attempted =
      ((ClientRepository.GetActiveClients stABC.clients).filter
        (fun c => decide (c.roomID = "lobby"))).map (fun c => c.id) := by
  refine ⟨by decide, by decide, ?_⟩
  exact (c4_delivery_sets stABC "lobby" "hi" 0 (by decide) (by decide)).1
/-- Deleting a present id removes exactly one entry (ids are unique). -/
theorem filter_ne_length {cs : List Client} {i : String}
    (hnd : (cs.map (fun c => c.id)).Nodup)
    (hmem : cs.any (fun x => decide (x.id = i)) = true) :
    (cs.filter (fun x => !decide (x.id = i))).length + 1 = cs.length := by
  induction cs with
  | nil => simp at hmem
  | cons h tl ih =>
    rw [List.filter_cons]
    by_cases hh : h.id = i
    · have hrest : ∀ x ∈ tl, (!decide (x.id = i)) = true := by
        intro x hx
        have hne : x.id ≠ i := by
          intro he
          have hmm : h.id ∈ tl.map (fun c => c.id) := by
            rw [hh, ← he]; exact List.mem_map_of_mem _ hx
          exact (List.nodup_cons.mp hnd).1 hmm
        simp [hne]
      rw [if_neg (by simp [hh]), List.filter_eq_self.mpr hrest]
      simp
    · rw [if_pos (by simp [hh])]
      have hmem' : tl.any (fun x => decide (x.id = i)) = true := by
        rcases List.any_eq_true.mp hmem with ⟨x, hx, hxi⟩
        rcases List.mem_cons.mp hx with he | hx
        · exact absurd (of_decide_eq_true (he ▸ hxi)) hh
        · exact List.any_eq_true.mpr ⟨x, hx, hxi⟩
      have := ih (List.nodup_cons.mp hnd).2 hmem'
      simp only [List.length_cons]
      omega

/-- One step of the C5 run preserves unique ids and the count equation. -/
theorem runRepoOp_inv (op : RepoOp) (cs : List Client) (a r : Nat)
    (hnd : (cs.map (fun c => c.id)).Nodup) (hc : cs.length + r = a) :
    ((runRepoOp (cs, a, r) op).1.map (fun c => c.id)).Nodup ∧
      (runRepoOp (cs, a, r) op).1.length + (runRepoOp (cs, a, r) op).2.2 =
        (runRepoOp (cs, a, r) op).2.1 := by
  cases op with
  | addOp c =>
    cases c with
    | none => exact ⟨hnd, hc⟩
    | some c =>
      by_cases hdup : cs.any (fun x => decide (x.id = c.id)) = true
      · simp only [runRepoOp, ClientRepository.Add, if_pos hdup]
        exact ⟨hnd, hc⟩
      · simp only [runRepoOp, ClientRepository.Add, if_neg hdup]
        constructor
        · rw [List.map_append]
          refine List.Nodup.append hnd (by simp) ?_
          intro x hx hx1
          rcases List.mem_map.mp hx with ⟨y, hy, hyx⟩
          apply hdup
          refine List.any_eq_true.mpr ⟨y, hy, ?_⟩
          have : x = c.id := by simpa using hx1
          simp [hyx, this]
        · simp only [List.length_append, List.length_singleton]
          omega
  | removeOp i =>
    by_cases hmem : cs.any (fun x => decide (x.id = i)) = true
    · simp only [runRepoOp, ClientRepository.Remove, if_pos hmem]
      constructor
      · exact hnd.sublist ((List.filter_sublist _).map _)
      · have := filter_ne_length hnd hmem
        omega
    · simp only [runRepoOp, ClientRepository.Remove, if_neg hmem]
      exact ⟨hnd, hc⟩

/-- The C5 run invariant over a whole operation sequence. -/
theorem runRepoOps_inv (ops : List RepoOp) :
    ∀ (cs : List Client) (a r : Nat),
      (cs.map (fun c => c.id)).Nodup → cs.length + r = a →
      ((ops.foldl runRepoOp (cs, a, r)).1.map (fun c => c.id)).Nodup ∧
        (ops.foldl runRepoOp (cs, a, r)).1.length +
          (ops.foldl runRepoOp (cs, a, r)).2.2 =
          (ops.foldl runRepoOp (cs, a, r)).2.1 := by
  induction ops with
  | nil => exact fun cs a r h1 h2 => ⟨h1, h2⟩
  | cons op tl ih =>
    intro cs a r h1 h2
    rw [List.foldl_cons]
    have h := runRepoOp_inv op cs a r h1 h2
    cases hop : runRepoOp (cs, a, r) op with
    | mk cs' p =>
      cases p with
      | mk a' r' =>
        rw [hop] at h
        exact ih cs' a' r' h.1 h.2

/-- C5: over any `Add`/`Remove` sequence from the empty registry, `Count`
equals successful adds minus successful removes; a duplicate `Add` returns
`errClientExists` and changes nothing; a `Remove` of an unknown id returns
`errClientNotFound` and changes nothing; an `Add` of a nil client fails and
changes nothing. -/
theorem c5_registry_count (ops : List RepoOp) :
    (ClientRepository.Count (runRepoOps ops).1 + (runRepoOps ops).2.2 =
      (runRepoOps ops).2.1) ∧
    (∀ (cs : List Client) (a r : Nat) (c : Client), (∃ x ∈ cs, x.id = c.id) →
      ClientRepository.Add cs (some c) = .error .errClientExists ∧
      runRepoOp (cs, a, r) (.addOp (some c)) = (cs, a, r)) ∧
    (∀ (cs : List Client) (a r : Nat) (i : String), (∀ x ∈ cs, x.id ≠ i) →
      ClientRepository.Remove cs i = .error .errClientNotFound ∧
      runRepoOp (cs, a, r) (.removeOp i) = (cs, a, r)) ∧
    (∀ (cs : List Client) (a r : Nat),
      ClientRepository.Add cs none = .error .errNilClient ∧
      runRepoOp (cs, a, r) (.addOp none) = (cs, a, r)) := by
  refine ⟨?_, ?_, ?_, fun cs a r => ⟨rfl, rfl⟩⟩
  · exact (runRepoOps_inv ops [] 0 0 (by simp) (by simp)).2
  · intro cs a r c hdup
    have hany : cs.any (fun x => decide (x.id = c.id)) = true := by
      rcases hdup with ⟨x, hx, hxi⟩
      exact List.any_eq_true.mpr ⟨x, hx, by simp [hxi]⟩
    constructor
    · simp only [ClientRepository.Add, if_pos hany]
    · simp only [runRepoOp, ClientRepository.Add, if_pos hany]
  · intro cs a r i hmiss
    have hany : ¬ cs.any (fun x => decide (x.id = i)) = true := by
      intro hx
      rcases List.any_eq_true.mp hx with ⟨x, hxm, hxi⟩
      exact hmiss x hxm (of_decide_eq_true hxi)
    constructor
    · simp only [ClientRepository.Remove, if_neg hany]
    · simp only [runRepoOp, ClientRepository.Remove, if_neg hany]

/-- Witness for C5: two successful adds, one duplicate add, one successful
remove and one failed remove leave a count of 1 = 3 adds-attempted minus
2 successes accounting. -/
theorem c5_registry_count_witness :
    ClientRepository.Count
        (runRepoOps [.addOp (some cA), .addOp (some cB), .addOp (some cA),
          .removeOp "A", .removeOp "Z", .addOp none]).1 +
      (runRepoOps [.addOp (some cA), .addOp (some cB), .addOp (some cA),
          .removeOp "A", .removeOp "Z", .addOp none]).2.2 =
      (runRepoOps [.addOp (some cA), .addOp (some cB), .addOp (some cA),
          .removeOp "A", .removeOp "Z", .addOp none]).2.1 ∧
    (∃ x ∈ [cA], x.id = cA.id) ∧
    ClientRepository.Add [cA] (some cA) = .error .errClientExists := by
  refine ⟨(c5_registry_count [.addOp (some cA), .addOp (some cB),
    .addOp (some cA), .removeOp "A", .removeOp "Z", .addOp none]).1,
    ⟨cA, by decide, rfl⟩, ?_⟩
  exact ((c5_registry_count []).2.1 [cA] 0 0 cA ⟨cA, by decide, rfl⟩).1
/-- Folding `logMessage` preserves the per-room bound. -/
theorem foldl_logMessage_bound (msgs : List ChatMessage) :
    ∀ st : BroadcastState, (∀ k, (st.messageLog k).length ≤ st.maxLogSize) →
      ∀ k, ((msgs.foldl logMessage st).messageLog k).length ≤
        (msgs.foldl logMessage st).maxLogSize := by
  induction msgs with
  | nil => exact fun st h => h
  | cons m tl ih =>
    intro st h
    rw [List.foldl_cons]
    apply ih
    intro k
    rw [logMessage_max]
    exact logMessage_bound st m h k

/-- Folding `logMessage` never changes the configured bound. -/
theorem foldl_logMessage_max (msgs : List ChatMessage) :
    ∀ st : BroadcastState,
      (msgs.foldl logMessage st).maxLogSize = st.maxLogSize := by
  induction msgs with
  | nil => exact fun st => rfl
  | cons m tl ih =>
    intro st
    rw [List.foldl_cons, ih, logMessage_max]

/-- C3: after any sequence of logged messages from a fresh service, no
room's history exceeds the configured bound, and with bound 3 the messages
1..5 leave exactly messages 3, 4, 5 in insertion order (FIFO eviction). -/
theorem c3_log_bounded_fifo (msgs : List ChatMessage) (maxSize : Nat)
    (r : String) :
    (GetMessageHistory (msgs.foldl logMessage (NewBroadcastService maxSize))
        r).length ≤ maxSize ∧
    GetMessageHistory
        ([fifoMsg 1, fifoMsg 2, fifoMsg 3, fifoMsg 4, fifoMsg 5].foldl
          logMessage (NewBroadcastService 3)) "r1" =
      [fifoMsg 3, fifoMsg 4, fifoMsg 5] := by
  constructor
  · have h := foldl_logMessage_bound msgs (NewBroadcastService maxSize)
      (by intro k; simp [NewBroadcastService]) (logKey r)
    rw [foldl_logMessage_max] at h
    exact h
  · decide

/-- The fan-out loops never touch the message log. -/
theorem GetMessageHistory_fanOutS (now : Int) (ts : List Client)
    (s : BroadcastState) (r : String) :
    GetMessageHistory (fanOutS now s ts) r = GetMessageHistory s r := by
  unfold GetMessageHistory
  rw [fanOutS_log]

/-- The room fan-out loop never touches the message log. -/
theorem GetMessageHistory_fanOutRoomS (rm : String) (now : Int)
    (ts : List Client) (s : BroadcastState) (r : String) :
    GetMessageHistory (fanOutRoomS rm now s ts) r = GetMessageHistory s r := by
  unfold GetMessageHistory
  rw [fanOutRoomS_log]

/-- C7: `BroadcastMessage` rejects an empty payload; on an empty active set
it returns `errNoClients` and leaves every room's log unchanged; otherwise
it appends exactly one `TextMessage` entry under the global key and no
other room's log changes. -/
theorem c7_broadcast_all_errors (st : BroadcastState) (msg : String)
    (now : Int) :
    (msg = "" →
      BroadcastMessage st msg now = ⟨some .errEmptyMessage, st, []⟩) ∧
    (msg ≠ "" → ClientRepository.GetActiveClients st.clients = [] →
      BroadcastMessage st msg now = ⟨some .errNoClients, st, []⟩ ∧
      ∀ r, GetMessageHistory (BroadcastMessage st msg now).state r =
        GetMessageHistory st r) ∧
    (msg ≠ "" → ClientRepository.GetActiveClients st.clients ≠ [] →
      (GetMessageHistory st "").length < st.maxLogSize →
      GetMessageHistory (BroadcastMessage st msg now).state "" =
        GetMessageHistory st "" ++ [⟨.TextMessage, msg, "", "", now⟩] ∧
      ∀ r, logKey r ≠ "global" →
        GetMessageHistory (BroadcastMessage st msg now).state r =
          GetMessageHistory st r) := by
  refine ⟨?_, ?_, ?_⟩
  · intro hm
    simp [BroadcastMessage, hm]
  · intro hm hne
    refine ⟨by simp [BroadcastMessage, hm, hne], ?_⟩
    intro r
    simp [BroadcastMessage, hm, hne]
  · intro hm hne hlen
    rw [BroadcastMessage_success st msg now hm hne]
    constructor
    · show GetMessageHistory
          (fanOutS now (logMessage st ⟨.TextMessage, msg, "", "", now⟩)
            (ClientRepository.GetActiveClients st.clients)) "" = _
      rw [GetMessageHistory_fanOutS]
      exact GetMessageHistory_logMessage_self st
        ⟨.TextMessage, msg, "", "", now⟩ hlen
    · intro r hrk
      show GetMessageHistory
          (fanOutS now (logMessage st ⟨.TextMessage, msg, "", "", now⟩)
            (ClientRepository.GetActiveClients st.clients)) r = _
      rw [GetMessageHistory_fanOutS]
      refine GetMessageHistory_logMessage_ne st _ r ?_
      intro he
      exact hrk he

/-- Witness for C7 at `stABC`. -/
theorem c7_broadcast_all_errors_witness :
    ("hi" : String) ≠ "" ∧
    ClientRepository.GetActiveClients stABC.clients ≠ [] ∧
    (GetMessageHistory stABC "").length < stABC.maxLogSize ∧
    GetMessageHistory (BroadcastMessage stABC "hi" 5).state "" =
      GetMessageHistory stABC "" ++ [⟨.TextMessage, "hi", "", "", 5⟩] := by
  refine ⟨by decide, by decide, by decide, ?_⟩
  exact ((c7_broadcast_all_errors stABC "hi" 5).2.2 (by decide) (by decide)
    (by decide)).1

/-- Counterexample to C2 as stated: with an empty registry no active
connection has room "r1", yet `BroadcastToRoom` returns `errNoClients`, not
the in-room error, and records nothing in the room's history. -/
theorem c2_counterexample :
    (BroadcastToRoom (NewBroadcastService 100) "r1" "hi" 0).err =
      some .errNoClients ∧
    (BroadcastToRoom (NewBroadcastService 100) "r1" "hi" 0).err ≠
      some .errNoActiveClientsInRoom ∧
    GetMessageHistory
      (BroadcastToRoom (NewBroadcastService 100) "r1" "hi" 0).state "r1" = [] := by
  exact ⟨rfl, by decide, rfl⟩

/-- C2 (amended): for a non-empty payload and room id, when the active set
is non-empty `BroadcastToRoom` appends the message to the room's log before
the recipient count check and returns the in-room error if no active
connection is in the room; when the whole active set is empty it returns
`errNoClients` without logging anything. -/
theorem c2_room_log_before_count (st : BroadcastState) (r msg : String)
    (now : Int) (hm : msg ≠ "") (hr : r ≠ "") :
    (ClientRepository.GetActiveClients st.clients = [] →
      BroadcastToRoom st r msg now = ⟨some .errNoClients, st, []⟩) ∧
    (ClientRepository.GetActiveClients st.clients ≠ [] →
      (GetMessageHistory st r).length < st.maxLogSize →
      GetMessageHistory (BroadcastToRoom st r msg now).state r =
        GetMessageHistory st r ++ [⟨.TextMessage, msg, "", r, now⟩] ∧
      ((∀ c ∈ ClientRepository.GetActiveClients st.clients, c.roomID ≠ r) →
        (BroadcastToRoom st r msg now).err = some .errNoActiveClientsInRoom)) := by
  constructor
  · intro hne
    simp [BroadcastToRoom, hm, hr, hne]
  · intro hne hlen
    rw [BroadcastToRoom_parts st r msg now hm hr hne]
    constructor
    · show GetMessageHistory
          (fanOutRoomS r now (logMessage st ⟨.TextMessage, msg, "", r, now⟩)
            (ClientRepository.GetActiveClients st.clients)) r = _
      rw [GetMessageHistory_fanOutRoomS]
      exact GetMessageHistory_logMessage_self st
        ⟨.TextMessage, msg, "", r, now⟩ hlen
    · intro hnone
      have hfil : (ClientRepository.GetActiveClients st.clients).filter
          (fun c => decide (c.roomID = r)) = [] := by
        rw [List.filter_eq_nil_iff]
        intro c hc
        simpa using hnone c hc
      show (if _ then _ else _) = _
      rw [hfil]
      rfl

/-- Witness for C2 at `stABC`: broadcasting to a room none of whose members
are active still logs the message and reports the in-room error. -/
theorem c2_room_log_before_count_witness :
    ("hi" : String) ≠ "" ∧ ("r9" : String) ≠ "" ∧
    ClientRepository.GetActiveClients stABC.clients ≠ [] ∧
    (GetMessageHistory stABC "r9").length < stABC.maxLogSize ∧
    GetMessageHistory (BroadcastToRoom stABC "r9" "hi" 0).state "r9" =
      GetMessageHistory stABC "r9" ++ [⟨.TextMessage, "hi", "", "r9", 0⟩] ∧
    (BroadcastToRoom stABC "r9" "hi" 0).err = some .errNoActiveClientsInRoom := by
  have h := (c2_room_log_before_count stABC "r9" "hi" 0 (by decide) (by decide)).2
    (by decide) (by decide)
  exact ⟨by decide, by decide, by decide, by decide, h.1, h.2 (by decide)⟩
/-- C6: `SendPrivateMessage` rejects an empty payload; propagates the
registry's not-found error; returns the inactive-connection error without
attempting a transport write when the target is inactive; and on a failing
transport write deactivates the target and propagates the write error. -/
theorem c6_send_private (st : BroadcastState) (target msg : String)
    (now : Int) :
    (msg = "" →
      SendPrivateMessage st target msg now = ⟨some .errEmptyMessage, st, []⟩) ∧
    (msg ≠ "" → findClient st target = none →
      SendPrivateMessage st target msg now = ⟨some .errClientNotFound, st, []⟩) ∧
    (∀ c, msg ≠ "" → findClient st target = some c → c.isActive = false →
      SendPrivateMessage st target msg now = ⟨some .errClientInactive, st, []⟩) ∧
    (∀ c, msg ≠ "" → findClient st target = some c → c.isActive = true →
      c.connWriteFails = true →
      (SendPrivateMessage st target msg now).err = some .errWriteFailed ∧
      (SendPrivateMessage st target msg now).attempted = [c.id] ∧
      findClient (SendPrivateMessage st target msg now).state target =
        some (handleClientError c)) := by
  refine ⟨?_, ?_, ?_, ?_⟩
  · intro hm
    simp [SendPrivateMessage, hm]
  · intro hm hfind
    have hf : st.clients.find? (fun x => decide (x.id = target)) = none := hfind
    simp [SendPrivateMessage, hm, ClientRepository.Get, hf]
  · intro c hm hfind ha
    have hf : st.clients.find? (fun x => decide (x.id = target)) = some c := hfind
    simp [SendPrivateMessage, hm, ClientRepository.Get, hf, ha]
  · intro c hm hfind ha hw
    have hf : st.clients.find? (fun x => decide (x.id = target)) = some c := hfind
    have hcid : c.id = target := by simpa using List.find?_some hf
    have hfc : findClient st c.id = some c := by rw [hcid]; exact hfind
    simp only [SendPrivateMessage, if_neg hm, ClientRepository.Get, hf, ha,
      Bool.not_true, Bool.false_eq_true, if_false, if_pos hw]
    refine ⟨trivial, trivial, ?_⟩
    rw [← hcid,
      findClient_updateClient_self st c.id handleClientError (fun x => rfl), hfc]
    rfl

/-- Witness for C6: sending to the inactive client D returns the inactive
error without a write attempt; sending to the failing client B deactivates
it and propagates the write error. -/
theorem c6_send_private_witness :
    ("hi" : String) ≠ "" ∧
    findClient stBfail "B" = some cBfail ∧ cBfail.isActive = true ∧
    cBfail.connWriteFails = true ∧
    (SendPrivateMessage stBfail "B" "hi" 0).err = some .errWriteFailed ∧
    (SendPrivateMessage stBfail "B" "hi" 0).attempted = ["B"] ∧
    findClient (SendPrivateMessage stBfail "B" "hi" 0).state "B" =
      some (handleClientError cBfail) := by
  have h := (c6_send_private stBfail "B" "hi" 0).2.2.2 cBfail (by decide)
    (by decide) (by decide) (by decide)
  exact ⟨by decide, by decide, by decide, by decide, h.1, h.2.1, h.2.2⟩
/-- A found client is a registry member. -/
theorem mem_of_findClient {st : BroadcastState} {cid : String} {c : Client}
    (h : findClient st cid = some c) : c ∈ st.clients :=
  List.mem_of_find?_eq_some h

/-- A found client carries the looked-up id. -/
theorem id_of_findClient {st : BroadcastState} {cid : String} {c : Client}
    (h : findClient st cid = some c) : c.id = cid := by
  simpa using List.find?_some h

/-- `updateClient` with an id-preserving edit keeps the registry well-formed. -/
theorem WF_updateClient (st : BroadcastState) (cid : String)
    (f : Client → Client) (hf : ∀ x, (f x).id = x.id) (h : WF st) :
    WF { st with clients := updateClient st.clients cid f } := by
  show ((updateClient st.clients cid f).map (fun c => c.id)).Nodup
  rw [updateClient_map_id st.clients cid f hf]
  exact h

/-- `BroadcastToRoom` keeps the registry well-formed. -/
theorem WF_state_BroadcastToRoom (st : BroadcastState) (r m : String)
    (now : Int) (h : WF st) : WF (BroadcastToRoom st r m now).state := by
  by_cases hm : m = ""
  · simp only [BroadcastToRoom, if_pos hm]; exact h
  by_cases hr : r = ""
  · simp only [BroadcastToRoom, if_neg hm, if_pos hr]; exact h
  by_cases hne : ClientRepository.GetActiveClients st.clients = []
  · simp only [BroadcastToRoom, if_neg hm, if_neg hr, if_pos hne]; exact h
  · rw [BroadcastToRoom_parts st r m now hm hr hne]
    show WF (fanOutRoomS r now (logMessage st ⟨.TextMessage, m, "", r, now⟩)
      (ClientRepository.GetActiveClients st.clients))
    exact WF_fanOutRoomS r now _ st _ h

/-- On the success path, `BroadcastToRoom` appends exactly the one
`TextMessage` entry to the room's history. -/
theorem BroadcastToRoom_success_history (st : BroadcastState) (r msg : String)
    (now : Int) (hm : msg ≠ "") (hr : r ≠ "")
    (hne : ClientRepository.GetActiveClients st.clients ≠ [])
    (hlen : (GetMessageHistory st r).length < st.maxLogSize) :
    GetMessageHistory (BroadcastToRoom st r msg now).state r =
      GetMessageHistory st r ++ [⟨.TextMessage, msg, "", r, now⟩] := by
  rw [BroadcastToRoom_parts st r msg now hm hr hne]
  show GetMessageHistory
      (fanOutRoomS r now (logMessage st ⟨.TextMessage, msg, "", r, now⟩)
        (ClientRepository.GetActiveClients st.clients)) r = _
  rw [GetMessageHistory_fanOutRoomS]
  exact GetMessageHistory_logMessage_self st ⟨.TextMessage, msg, "", r, now⟩ hlen

/-- On the success path, a room member with a healthy transport ends up
with only its activity timestamp refreshed. -/
theorem BroadcastToRoom_success_find (st : BroadcastState) (r msg : String)
    (now : Int) (c : Client) (hm : msg ≠ "") (hr : r ≠ "") (hWF : WF st)
    (hc : c ∈ st.clients) (ha : c.isActive = true) (hroom : c.roomID = r)
    (hok : c.connWriteFails = false) :
    findClient (BroadcastToRoom st r msg now).state c.id =
      some (c.updateActivity now) := by
  have hne := getActive_ne_nil hc ha
  rw [BroadcastToRoom_parts st r msg now hm hr hne]
  show findClient
      (fanOutRoomS r now (logMessage st ⟨.TextMessage, msg, "", r, now⟩)
        (ClientRepository.GetActiveClients st.clients)) c.id = _
  have hfind0 : findClient st c.id = some c :=
    find?_id_of_mem_nodup st.clients c hWF hc
  have h2 := findClient_fanOutRoomS_mem r now
    (ClientRepository.GetActiveClients st.clients)
    (logMessage st ⟨.TextMessage, msg, "", r, now⟩) c
    (getActive_nodup hWF) (mem_getActive hc ha) hroom
    (by rw [findClient_logMessage]; exact hfind0)
  rw [h2]
  unfold applyWrite
  rw [hok]
  rfl

/-- The join notice is never the empty string. -/
theorem joinNotice_ne (name : String) : joinNotice name ≠ "" := by
  intro h
  have hl := congrArg String.length h
  unfold joinNotice at hl
  simp only [String.length_append] at hl
  have h1 : ("使用者 " : String).length = 4 := rfl
  have h2 : (" 已加入聊天室" : String).length = 7 := rfl
  have h3 : ("" : String).length = 0 := rfl
  omega

/-- The leave notice is never the empty string. -/
theorem leaveNotice_ne (name : String) : leaveNotice name ≠ "" := by
  intro h
  have hl := congrArg String.length h
  unfold leaveNotice at hl
  simp only [String.length_append] at hl
  have h1 : ("使用者 " : String).length = 4 := rfl
  have h2 : (" 已離開聊天室" : String).length = 7 := rfl
  have h3 : ("" : String).length = 0 := rfl
  omega
/-- C9: a successful `AddClient` of an active client with a non-empty room
appends exactly two entries with content "新用戶加入聊天室" to that room's
history: first the `SystemMessage` entry logged by `AddClient` itself, then
the `TextMessage` entry logged by the nested room broadcast. -/
theorem c9_addClient_double_log (st : BroadcastState) (c : Client) (now : Int)
    (ha : c.isActive = true) (hr : c.roomID ≠ "")
    (hfresh : ∀ x ∈ st.clients, x.id ≠ c.id)
    (hlen : (GetMessageHistory st c.roomID).length + 2 ≤ st.maxLogSize) :
    (AddClient st (some c) now).1 = none ∧
    GetMessageHistory (AddClient st (some c) now).2 c.roomID =
      GetMessageHistory st c.roomID ++
        [⟨.SystemMessage, "新用戶加入聊天室", "", c.roomID, now⟩,
         ⟨.TextMessage, "新用戶加入聊天室", "", c.roomID, now⟩] := by
  have hany : ¬ st.clients.any (fun x => decide (x.id = c.id)) = true := by
    intro hx
    rcases List.any_eq_true.mp hx with ⟨x, hxm, hxi⟩
    exact hfresh x hxm (of_decide_eq_true hxi)
  have hmsg : ("新用戶加入聊天室" : String) ≠ "" := by decide
  refine ⟨by simp only [AddClient, ClientRepository.Add, if_neg hany, if_neg hr], ?_⟩
  simp only [AddClient, ClientRepository.Add, if_neg hany, if_neg hr]
  have hsys :
      GetMessageHistory
        (logMessage { st with clients := st.clients ++ [c] }
          ⟨.SystemMessage, "新用戶加入聊天室", "", c.roomID, now⟩) c.roomID =
      GetMessageHistory st c.roomID ++
        [⟨.SystemMessage, "新用戶加入聊天室", "", c.roomID, now⟩] := by
    exact GetMessageHistory_logMessage_self _ _
      (by show (GetMessageHistory st c.roomID).length < st.maxLogSize; omega)
  have hne : ClientRepository.GetActiveClients
      (logMessage { st with clients := st.clients ++ [c] }
        ⟨.SystemMessage, "新用戶加入聊天室", "", c.roomID, now⟩).clients ≠ [] := by
    rw [logMessage_clients]
    exact getActive_ne_nil (List.mem_append_right _ (List.mem_singleton.mpr rfl)) ha
  rw [BroadcastToRoom_success_history _ _ _ _ hmsg hr hne
      (by
        rw [hsys]
        show (GetMessageHistory st c.roomID ++
          [(⟨.SystemMessage, "新用戶加入聊天室", "", c.roomID, now⟩ : ChatMessage)]).length <
          st.maxLogSize
        rw [List.length_append]
        simp only [List.length_singleton]
        omega),
    hsys, List.append_assoc]
  rfl

/-- Witness for C9: adding `cA` (active, room "lobby") to an empty service
records the system notice and then the broadcast copy. -/
theorem c9_addClient_double_log_witness :
    cA.isActive = true ∧ cA.roomID ≠ "" ∧
    (GetMessageHistory (NewBroadcastService 100) cA.roomID).length + 2 ≤
      (NewBroadcastService 100).maxLogSize ∧
    GetMessageHistory (AddClient (NewBroadcastService 100) (some cA) 7).2
        cA.roomID =
      GetMessageHistory (NewBroadcastService 100) cA.roomID ++
        [⟨.SystemMessage, "新用戶加入聊天室", "", cA.roomID, 7⟩,
         ⟨.TextMessage, "新用戶加入聊天室", "", cA.roomID, 7⟩] := by
  refine ⟨by decide, by decide, by decide, ?_⟩
  exact (c9_addClient_double_log (NewBroadcastService 100) cA 7 (by decide)
    (by decide) (by intro x hx; cases hx) (by decide)).2
/-- `BroadcastToRoom` never changes the configured log bound. -/
theorem BroadcastToRoom_state_max (st : BroadcastState) (r m : String)
    (now : Int) :
    (BroadcastToRoom st r m now).state.maxLogSize = st.maxLogSize := by
  by_cases hm : m = ""
  · simp only [BroadcastToRoom, if_pos hm]
  by_cases hr : r = ""
  · simp only [BroadcastToRoom, if_neg hm, if_pos hr]
  by_cases hne : ClientRepository.GetActiveClients st.clients = []
  · simp only [BroadcastToRoom, if_neg hm, if_neg hr, if_pos hne]
  · rw [BroadcastToRoom_parts st r m now hm hr hne]
    show (fanOutRoomS r now (logMessage st ⟨.TextMessage, m, "", r, now⟩)
      (ClientRepository.GetActiveClients st.clients)).maxLogSize = _
    rw [fanOutRoomS_max, logMessage_max]

@[simp] theorem GetMessageHistory_withClients (s : BroadcastState)
    (cs : List Client) (r : String) :
    GetMessageHistory { s with clients := cs } r = GetMessageHistory s r := rfl

/-- Counterexample to C8 as stated: the two entries appended by the
join/leave round-trip carry the data kind (`TextMessage`), not the system
kind. -/
theorem c8_counterexample :
    (GetMessageHistory (handleLeaveRoom (handleJoinRoom stJoin "A" "r1" 0) "A" 1)
        "r1").map (fun m => m.type) =
      [MessageType.TextMessage, MessageType.TextMessage] ∧
    MessageType.TextMessage ≠ MessageType.SystemMessage := by
  exact ⟨by decide, by decide⟩

/-- C8 (amended): for a registered, active connection with a healthy
transport and an empty room field, `join_room r` immediately followed by
`leave_room` restores the room field to the empty string and appends exactly
two entries to room r's history — the joined notice then the left notice —
both recorded as data-kind (`TextMessage`) entries. -/
theorem c8_join_leave_roundtrip (st : BroadcastState) (cid r : String)
    (now1 now2 : Int) (c : Client) (hWF : WF st)
    (hfind : findClient st cid = some c) (hroom : c.roomID = "")
    (ha : c.isActive = true) (hok : c.connWriteFails = false) (hr : r ≠ "")
    (hlen : (GetMessageHistory st r).length + 2 ≤ st.maxLogSize) :
    clientRoom (handleLeaveRoom (handleJoinRoom st cid r now1) cid now2) cid = "" ∧
    GetMessageHistory (handleLeaveRoom (handleJoinRoom st cid r now1) cid now2) r =
      GetMessageHistory st r ++
        [⟨.TextMessage, joinNotice c.userName, "", r, now1⟩,
         ⟨.TextMessage, leaveNotice c.userName, "", r, now2⟩] := by
  have hcid : c.id = cid := id_of_findClient hfind
  have hcr0 : clientRoom st cid = "" := by
    unfold clientRoom
    rw [hfind]
    exact hroom
  have hst2find : findClient
      { st with clients := updateClient st.clients cid (Client.setRoomID r) }
      cid = some (c.setRoomID r) := by
    rw [findClient_updateClient_self st cid (Client.setRoomID r) (fun x => rfl),
      hfind]
    rfl
  have hWF2 : WF
      { st with clients := updateClient st.clients cid (Client.setRoomID r) } :=
    WF_updateClient st cid _ (fun x => rfl) hWF
  have hname2 : clientName
      { st with clients := updateClient st.clients cid (Client.setRoomID r) }
      cid = c.userName := by
    unfold clientName
    rw [hst2find]
    rfl
  have hjoin : handleJoinRoom st cid r now1 =
      (BroadcastToRoom
        { st with clients := updateClient st.clients cid (Client.setRoomID r) }
        r (joinNotice c.userName) now1).state := by
    simp only [handleJoinRoom, if_neg (not_not_intro hcr0), hname2]
  have hmem2 : c.setRoomID r ∈
      updateClient st.clients cid (Client.setRoomID r) := by
    have hc0 : c ∈ st.clients := mem_of_findClient hfind
    have hmm := List.mem_map_of_mem
      (fun x => if x.id = cid then Client.setRoomID r x else x) hc0
    simp only [if_pos hcid] at hmm
    exact hmm
  have hne2 : ClientRepository.GetActiveClients
      (updateClient st.clients cid (Client.setRoomID r)) ≠ [] :=
    getActive_ne_nil hmem2 ha
  have h1find : findClient
      (BroadcastToRoom
        { st with clients := updateClient st.clients cid (Client.setRoomID r) }
        r (joinNotice c.userName) now1).state cid =
      some ((c.setRoomID r).updateActivity now1) := by
    have h := BroadcastToRoom_success_find
      { st with clients := updateClient st.clients cid (Client.setRoomID r) }
      r (joinNotice c.userName) now1 (c.setRoomID r) (joinNotice_ne _) hr hWF2
      hmem2 ha rfl hok
    rwa [show (c.setRoomID r).id = cid from hcid] at h
  have hWF1 : WF (BroadcastToRoom
      { st with clients := updateClient st.clients cid (Client.setRoomID r) }
      r (joinNotice c.userName) now1).state :=
    WF_state_BroadcastToRoom _ r _ now1 hWF2
  have hhist1 : GetMessageHistory
      (BroadcastToRoom
        { st with clients := updateClient st.clients cid (Client.setRoomID r) }
        r (joinNotice c.userName) now1).state r =
      GetMessageHistory st r ++
        [⟨.TextMessage, joinNotice c.userName, "", r, now1⟩] :=
    BroadcastToRoom_success_history
      { st with clients := updateClient st.clients cid (Client.setRoomID r) }
      r (joinNotice c.userName) now1 (joinNotice_ne _) hr hne2
      (by show (GetMessageHistory st r).length < st.maxLogSize; omega)
  rw [hjoin]
  set st1 : BroadcastState := (BroadcastToRoom
    { st with clients := updateClient st.clients cid (Client.setRoomID r) }
    r (joinNotice c.userName) now1).state with hst1def
  have hcr1 : clientRoom st1 cid = r := by
    unfold clientRoom
    rw [h1find]
    rfl
  have hname1 : clientName st1 cid = c.userName := by
    unfold clientName
    rw [h1find]
    rfl
  have hmem1 : (c.setRoomID r).updateActivity now1 ∈ st1.clients :=
    mem_of_findClient h1find
  have hleave : handleLeaveRoom st1 cid now2 =
      { (BroadcastToRoom st1 r (leaveNotice c.userName) now2).state with
        clients := updateClient
          (BroadcastToRoom st1 r (leaveNotice c.userName) now2).state.clients
          cid (Client.setRoomID "") } := by
    simp only [handleLeaveRoom, hcr1, if_neg hr, hname1]
  rw [hleave]
  have h3find : findClient
      (BroadcastToRoom st1 r (leaveNotice c.userName) now2).state cid =
      some (((c.setRoomID r).updateActivity now1).updateActivity now2) := by
    have h := BroadcastToRoom_success_find st1 r (leaveNotice c.userName) now2
      ((c.setRoomID r).updateActivity now1) (leaveNotice_ne _) hr hWF1 hmem1
      ha rfl hok
    rwa [show ((c.setRoomID r).updateActivity now1).id = cid from hcid] at h
  have hhist3 : GetMessageHistory
      (BroadcastToRoom st1 r (leaveNotice c.userName) now2).state r =
      (GetMessageHistory st r ++
        [⟨.TextMessage, joinNotice c.userName, "", r, now1⟩]) ++
        [⟨.TextMessage, leaveNotice c.userName, "", r, now2⟩] := by
    have h := BroadcastToRoom_success_history st1 r (leaveNotice c.userName)
      now2 (leaveNotice_ne _) hr (getActive_ne_nil hmem1 ha)
      (by
        rw [hhist1]
        have hmax : st1.maxLogSize = st.maxLogSize := by
          rw [hst1def]
          exact BroadcastToRoom_state_max _ _ _ _
        rw [hmax, List.length_append]
        simp only [List.length_singleton]
        omega)
    rw [hhist1] at h
    exact h
  constructor
  · show (findClient
        { clients := updateClient
            (BroadcastToRoom st1 r (leaveNotice c.userName) now2).state.clients
            cid (Client.setRoomID ""),
          messageLog :=
            (BroadcastToRoom st1 r (leaveNotice c.userName) now2).state.messageLog,
          maxLogSize :=
            (BroadcastToRoom st1 r (leaveNotice c.userName) now2).state.maxLogSize }
        cid).elim "" (fun x => x.roomID) = ""
    rw [findClient_updateClient_self
      (BroadcastToRoom st1 r (leaveNotice c.userName) now2).state cid
      (Client.setRoomID "") (fun x => rfl), h3find]
    rfl
  · show GetMessageHistory
        (BroadcastToRoom st1 r (leaveNotice c.userName) now2).state r = _
    rw [hhist3, List.append_assoc]
    rfl

/-- Witness for C8 at `stJoin`. -/
theorem c8_join_leave_roundtrip_witness :
    WF stJoin ∧ findClient stJoin "A" = some cU ∧ cU.roomID = "" ∧
    cU.isActive = true ∧ cU.connWriteFails = false ∧ ("r1" : String) ≠ "" ∧
    (GetMessageHistory stJoin "r1").length + 2 ≤ stJoin.maxLogSize ∧
    clientRoom (handleLeaveRoom (handleJoinRoom stJoin "A" "r1" 0) "A" 1) "A" = "" ∧
    GetMessageHistory (handleLeaveRoom (handleJoinRoom stJoin "A" "r1" 0) "A" 1)
        "r1" =
      GetMessageHistory stJoin "r1" ++
        [⟨.TextMessage, joinNotice cU.userName, "", "r1", 0⟩,
         ⟨.TextMessage, leaveNotice cU.userName, "", "r1", 1⟩] := by
  have h := c8_join_leave_roundtrip stJoin "A" "r1" 0 1 cU (by unfold WF; decide)
    (by decide) (by decide) (by decide) (by decide) (by decide) (by decide)
  exact ⟨by unfold WF; decide, by decide, by decide, by decide, by decide,
    by decide, by decide, h.1, h.2⟩
/-- C10: a frame that parses as the JSON envelope but carries type
"join_room" or "private" with an empty target is not dispatched as a
control message: it is handled exactly like an unparsable frame — broadcast
to the sender's current room when the room field is non-empty, otherwise to
all active connections. -/
theorem c10_empty_target_falls_through (st : BroadcastState) (cid raw : String)
    (p : MessagePayload) (now : Int)
    (ht : p.type = "join_room" ∨ p.type = "private") (htg : p.target = "") :
    processTextMessage st cid (some p) raw now =
      processTextMessage st cid none raw now ∧
    (clientRoom st cid ≠ "" →
      (processTextMessage st cid (some p) raw now).1 =
        .chatToRoom (clientRoom st cid) ∧
      (processTextMessage st cid (some p) raw now).2 =
        (BroadcastToRoom st (clientRoom st cid) raw now).state) ∧
    (clientRoom st cid = "" →
      (processTextMessage st cid (some p) raw now).1 = .chatToAll ∧
      (processTextMessage st cid (some p) raw now).2 =
        (BroadcastMessage st raw now).state) := by
  have hmain : processTextMessage st cid (some p) raw now =
      processTextMessage st cid none raw now := by
    rcases ht with ht | ht
    · have hne : ¬ p.type = "private" := by rw [ht]; decide
      simp only [processTextMessage, if_neg hne, if_pos ht,
        if_neg (not_not_intro htg)]
    · simp only [processTextMessage, if_pos ht, if_neg (not_not_intro htg)]
  refine ⟨hmain, ?_, ?_⟩
  · intro hroom
    rw [hmain]
    exact ⟨by simp only [processTextMessage, if_pos hroom],
      by simp only [processTextMessage, if_pos hroom]⟩
  · intro hroom
    rw [hmain]
    have hnn : ¬ clientRoom st cid ≠ "" := not_not_intro hroom
    exact ⟨by simp only [processTextMessage, if_neg hnn],
      by simp only [processTextMessage, if_neg hnn]⟩

/-- Witness for C10: a parsed `join_room` frame with an empty target sent by
the roomless client A is broadcast globally as plain chat. -/
theorem c10_empty_target_falls_through_witness :
    ((MessagePayload.mk "join_room" "hello" "").type = "join_room" ∨
      (MessagePayload.mk "join_room" "hello" "").type = "private") ∧
    (MessagePayload.mk "join_room" "hello" "").target = "" ∧
    processTextMessage stJoin "A" (some ⟨"join_room", "hello", ""⟩) "hello" 0 =
      processTextMessage stJoin "A" none "hello" 0 ∧
    (processTextMessage stJoin "A" (some ⟨"join_room", "hello", ""⟩)
      "hello" 0).1 = HandlerAction.chatToAll := by
  have h := c10_empty_target_falls_through stJoin "A" "hello"
    ⟨"join_room", "hello", ""⟩ 0 (Or.inl rfl) rfl
  exact ⟨Or.inl rfl, rfl, h.1, (h.2.2 (by decide)).1⟩

end LiveChat
